import Mathlib

/-!
Verification of the merge policy of the pezkuwi wallet configuration
synchronizer (scripts/sync_from_nova.py and scripts/merge-chains.py).

JSON documents are embedded as association lists of string keys; chain
entries are records carrying the three fields the scripts inspect
(chainId, name, options) plus an opaque remainder. Python dict update
semantics, double-star union and item assignment, are modelled by
dictInsert and dictUnion, which keep insertion order exactly as CPython
does.
-/

/-- A JSON-like value, used for the opaque values stored in section
documents and the global configuration. -/
inductive JVal where
  | null : JVal
  | bool : Bool → JVal
  | num : Int → JVal
  | str : String → JVal
  | arr : List JVal → JVal
  | obj : List (String × JVal) → JVal

/-- A Python dict with string keys, as an insertion-ordered association list. -/
abbrev Dict := List (String × JVal)

/-- Python membership test k in m. -/
def hasKey : Dict → String → Bool
  | [], _ => false
  | p :: rest, k => decide (p.1 = k) || hasKey rest k

/-- Python key lookup m.get(k). -/
def dictGet : Dict → String → Option JVal
  | [], _ => none
  | p :: rest, k => if p.1 = k then some p.2 else dictGet rest k

/-- Python item assignment m[k] = v: replaces the value in place when the key
exists (keeping its position), otherwise appends the pair at the end. -/
def dictInsert (m : Dict) (k : String) (v : JVal) : Dict :=
  if hasKey m k then
    m.map (fun p => if p.1 = k then (k, v) else p)
  else
    m ++ [(k, v)]

/-- Python double-star dict union of a and b: starts from a copy of a and
assigns every item of b in order. -/
def dictUnion (a b : Dict) : Dict :=
  b.foldl (fun m p => dictInsert m p.1 p.2) a

/-- One entry of a chain collection. The scripts read the fields chainId
(always present per the precondition), name and options (read through
dict.get with a default); all remaining fields are opaque payload. -/
structure Chain where
  chainId : String
  name : Option String
  options : Option (List String)
  extra : List (String × String)
  deriving DecidableEq

/-- Substring test on lists of characters: Python needle in hay. -/
def charsContain (needle hay : List Char) : Bool :=
  match hay with
  | [] => needle.isEmpty
  | _ :: rest => needle.isPrefixOf hay || charsContain needle rest

/-- Python substring operator: needle in hay (on strings). -/
def strContains (hay needle : String) : Bool :=
  charsContain needle.toList hay.toList

/-- Python str.lower: lowercases every character. Structural version of
the standard toLower of strings, so that it computes by reduction. -/
def lowerStr (s : String) : String :=
  ⟨s.data.map Char.toLower⟩

namespace SyncFromNova

/-- scripts/sync_from_nova.py merge_chains: pezkuwi chains first, then the
nova chains whose chainId is not a pezkuwi chainId. -/
def merge_chains (nova_chains pezkuwi_chains : List Chain) : List Chain :=
  let pezkuwi_ids := pezkuwi_chains.map Chain.chainId
  let nova_filtered := nova_chains.filter (fun c => !(pezkuwi_ids.contains c.chainId))
  pezkuwi_chains ++ nova_filtered

/-- An XCM section document: the five named sections the script touches,
each optional because a key may be absent from the JSON object. -/
structure XcmDoc where
  assetsLocation : Option Dict
  instructions : Option Dict
  networkDeliveryFee : Option Dict
  networkBaseWeight : Option Dict
  chains : Option (List Chain)

/-- scripts/sync_from_nova.py merge_xcm: dict sections are nova-base
overlaid with pezkuwi (pezkuwi wins), instructions are copied from nova
only when nova has them, and the chains list is merged pezkuwi-first. -/
def merge_xcm (nova_xcm pezkuwi_xcm : XcmDoc) : XcmDoc :=
  let instructionsMerged : Option Dict :=
    match nova_xcm.instructions with
    | some v => some v
    | none => none
  let pezkuwi_chain_ids := (pezkuwi_xcm.chains.getD []).map Chain.chainId
  let nova_chains_filtered :=
    (nova_xcm.chains.getD []).filter (fun c => !(pezkuwi_chain_ids.contains c.chainId))
  { assetsLocation :=
      some (dictUnion (nova_xcm.assetsLocation.getD []) (pezkuwi_xcm.assetsLocation.getD []))
  , instructions := instructionsMerged
  , networkDeliveryFee :=
      some (dictUnion (nova_xcm.networkDeliveryFee.getD []) (pezkuwi_xcm.networkDeliveryFee.getD []))
  , networkBaseWeight :=
      some (dictUnion (nova_xcm.networkBaseWeight.getD []) (pezkuwi_xcm.networkBaseWeight.getD []))
  , chains := some ((pezkuwi_xcm.chains.getD []) ++ nova_chains_filtered) }

/-- The body of the for-loop of merge_config: one overlay item is merged
into the accumulated dict, shallow-merging when both sides hold a dict
at the key and assigning the overlay value otherwise. -/
def mergeConfigStep (merged : Dict) (kv : String × JVal) : Dict :=
  match dictGet merged kv.1, kv.2 with
  | some (JVal.obj bd), JVal.obj od => dictInsert merged kv.1 (JVal.obj (dictUnion bd od))
  | _, _ => dictInsert merged kv.1 kv.2

/-- scripts/sync_from_nova.py merge_config: one-level-deep merge of the
global config, pezkuwi overlay winning; when both sides hold a dict at a
key the two dicts are shallow-merged, otherwise the overlay value
replaces the base value. -/
def merge_config (nova_config pezkuwi_overlay : Dict) : Dict :=
  pezkuwi_overlay.foldl mergeConfigStep nova_config

end SyncFromNova

namespace MergeChainsPy

/-- scripts/merge-chains.py BROKEN_CHAIN_KEYWORDS: chains with known broken
RPC endpoints, matched as substrings of the lower-cased name. -/
def BROKEN_CHAIN_KEYWORDS : List String :=
  ["aleph zero", "alephzero", "quartz", "invarch", "exosama", "deepbrain"]

/-- scripts/merge-chains.py EXCLUDED_CHAIN_IDS: explicitly disallowed
chain identifiers. -/
def EXCLUDED_CHAIN_IDS : List String :=
  [ "70255b4d28de0fc4e1a193d7e175ad1ccef431598211c55538f1018651a0344e"
  , "cd4d732201ebe5d6b014edda071c4203e16867305332f43c2e25ae6c9a1b7e6f"
  , "31a7d8914fb31c249b972f18c115f1e22b4b039abbcb03c73b6774c5642f9efe"
  , "eip155:41455"
  , "86e49c195aeae7c5c4a86ced251f1a28c67b3c35d8289c387ede1776cdd88b24"
  , "03aa6b475a03f8baf7f83e448513b00eaab03aefa4ed64bd1d31160dce028add"
  , "eip155:2109" ]

/-- scripts/merge-chains.py is_chain_excluded: classifies one chain,
returning the excluded flag together with the reason string. The rules
fire in order: explicit id, PAUSED marker in the name, testnet option
without a pezkuwi or zagros override in the name, then the first broken
keyword found in the lower-cased name. -/
def is_chain_excluded (chain : Chain) : Bool × String :=
  let chain_id := chain.chainId
  let name := chain.name.getD ""
  let options := chain.options.getD []
  if EXCLUDED_CHAIN_IDS.contains chain_id then
    (true, "broken RPC")
  else if strContains name "PAUSED" then
    (true, "PAUSED")
  else if options.contains "testnet"
          && !(strContains (lowerStr name) "pezkuwi")
          && !(strContains (lowerStr name) "zagros") then
    (true, "testnet")
  else
    match BROKEN_CHAIN_KEYWORDS.find? (fun keyword => strContains (lowerStr name) keyword) with
    | some keyword => (true, "broken (" ++ keyword ++ ")")
    | none => (false, "")

/-- The stats dict built by scripts/merge-chains.py merge_chains and
returned alongside the merged list. -/
structure Stats where
  pezkuwi : Nat
  nova_total : Nat
  nova_included : Nat
  excluded_paused : Nat
  excluded_testnet : Nat
  excluded_broken : Nat
  excluded_duplicate : Nat
  total : Nat
  excluded_list : List (String × String)
  deriving DecidableEq

/-- The mutable state of the main loop of merge_chains: the kept nova
chains, the excluded (name, reason) pairs and the counters. -/
structure LoopState where
  nova_filtered : List Chain
  excluded_chains : List (String × String)
  nova_included : Nat
  excluded_paused : Nat
  excluded_testnet : Nat
  excluded_broken : Nat
  excluded_duplicate : Nat
  deriving DecidableEq

/-- One iteration of the for-loop of merge_chains over a nova chain:
duplicates (a pezkuwi chainId) are counted and skipped; with filtering
on, an excluded chain is recorded with its reason and bumps the counter
chosen by substring tests on the reason; otherwise the chain is kept. -/
def mergeStep (pezkuwi_chain_ids : List String) (filter_broken : Bool)
    (s : LoopState) (chain : Chain) : LoopState :=
  if pezkuwi_chain_ids.contains chain.chainId then
    { s with excluded_duplicate := s.excluded_duplicate + 1 }
  else
    let cls := is_chain_excluded chain
    if filter_broken && cls.1 then
      { s with
        excluded_chains := s.excluded_chains ++ [(chain.name.getD "Unknown", cls.2)]
        excluded_paused :=
          if strContains cls.2 "PAUSED" then s.excluded_paused + 1 else s.excluded_paused
        excluded_testnet :=
          if !(strContains cls.2 "PAUSED") && strContains cls.2 "testnet" then
            s.excluded_testnet + 1
          else s.excluded_testnet
        excluded_broken :=
          if !(strContains cls.2 "PAUSED") && !(strContains cls.2 "testnet") then
            s.excluded_broken + 1
          else s.excluded_broken }
    else
      { s with
        nova_filtered := s.nova_filtered ++ [chain]
        nova_included := s.nova_included + 1 }

/-- scripts/merge-chains.py merge_chains: runs the loop over the nova
chains, then returns the merged list (pezkuwi first) with the stats. -/
def merge_chains (nova_chains pezkuwi_chains : List Chain) (filter_broken : Bool) :
    List Chain × Stats :=
  let pezkuwi_chain_ids := pezkuwi_chains.map Chain.chainId
  let final := nova_chains.foldl (mergeStep pezkuwi_chain_ids filter_broken)
    { nova_filtered := []
    , excluded_chains := []
    , nova_included := 0
    , excluded_paused := 0
    , excluded_testnet := 0
    , excluded_broken := 0
    , excluded_duplicate := 0 }
  let merged := pezkuwi_chains ++ final.nova_filtered
  ( merged
  , { pezkuwi := pezkuwi_chains.length
    , nova_total := nova_chains.length
    , nova_included := final.nova_included
    , excluded_paused := final.excluded_paused
    , excluded_testnet := final.excluded_testnet
    , excluded_broken := final.excluded_broken
    , excluded_duplicate := final.excluded_duplicate
    , total := merged.length
    , excluded_list := final.excluded_chains } )

/-- The filesystem visible to merge_version: which paths exist and which
chain collection a JSON file at a path parses to. -/
structure FS where
  present : List String
  chainsAt : String → List Chain

/-- Path of the version-specific nova chains file. -/
def novaVersionPath (version : String) : String :=
  "nova-base/chains/" ++ version ++ "/chains.json"

/-- Path of the root-level nova chains fallback file. -/
def novaRootPath : String :=
  "nova-base/chains/chains.json"

/-- Path of the pezkuwi overlay chains file. -/
def pezkuwiChainsPath : String :=
  "pezkuwi-overlay/chains/pezkuwi-chains.json"

/-- scripts/merge-chains.py merge_version: picks the version-specific
nova file, falling back to the root-level file; with neither present it
reports failure (returns false) and writes nothing. A missing pezkuwi
overlay file is treated as an empty overlay. On success the merged list
is written to the three output destinations. -/
def merge_version (fs : FS) (version : String) (filter_broken : Bool) :
    Bool × List (String × List Chain) :=
  let primary := novaVersionPath version
  let chosen : Option String :=
    if fs.present.contains primary then some primary
    else if fs.present.contains novaRootPath then some novaRootPath
    else none
  match chosen with
  | none => (false, [])
  | some nova_chains_path =>
    let nova_chains := fs.chainsAt nova_chains_path
    let pezkuwi_chains :=
      if fs.present.contains pezkuwiChainsPath then fs.chainsAt pezkuwiChainsPath else []
    let merged := (merge_chains nova_chains pezkuwi_chains filter_broken).1
    ( true
    , [ ("chains/" ++ version ++ "/chains.json", merged)
      , ("chains/chains.json", merged)
      , ("chains/" ++ version ++ "/android/chains.json", merged) ] )

/-- scripts/merge-chains.py main with the all flag: merges every known
version in turn, ignoring the per-version success flag, so one missing
resource never stops the remaining versions from being processed. -/
def main_all (fs : FS) (filter_broken : Bool) : List (Bool × List (String × List Chain)) :=
  ["v21", "v22"].map (fun v => merge_version fs v filter_broken)

end MergeChainsPy

section DictLemmas

theorem dictGet_cons (p : String × JVal) (m : Dict) (k : String) :
    dictGet (p :: m) k = if p.1 = k then some p.2 else dictGet m k := by
  cases p
  rfl

theorem replaceAll_get_self (m : Dict) (k : String) (v : JVal)
    (h : hasKey m k = true) :
    dictGet (m.map (fun p => if p.1 = k then (k, v) else p)) k = some v := by
  induction m with
  | nil => simp [hasKey] at h
  | cons a t ih =>
    by_cases ha : a.1 = k
    · simp [List.map_cons, ha, dictGet]
    · simp only [hasKey, ha, decide_False, Bool.false_or] at h
      simp [List.map_cons, ha, dictGet, ih h]

theorem replaceAll_get_ne (m : Dict) (k : String) (v : JVal) (k' : String)
    (h : k' ≠ k) :
    dictGet (m.map (fun p => if p.1 = k then (k, v) else p)) k' = dictGet m k' := by
  induction m with
  | nil => simp
  | cons a t ih =>
    by_cases ha : a.1 = k
    · have hne : ¬ (k = k') := fun hk => h hk.symm
      have hne' : ¬ (a.1 = k') := ha ▸ hne
      simp [List.map_cons, ha, dictGet, hne, hne', ih]
    · simp [List.map_cons, ha, dictGet, ih]

theorem dictGet_eq_none_of_hasKey_false (m : Dict) (k : String)
    (h : hasKey m k = false) :
    dictGet m k = none := by
  induction m with
  | nil => rfl
  | cons a t ih =>
    simp only [hasKey, Bool.or_eq_false_iff, decide_eq_false_iff_not] at h
    simp [dictGet, h.1, ih h.2]

theorem dictGet_append (l₁ l₂ : Dict) (k : String) :
    dictGet (l₁ ++ l₂) k = match dictGet l₁ k with
      | some v => some v
      | none => dictGet l₂ k := by
  induction l₁ with
  | nil => simp [dictGet]
  | cons a t ih =>
    by_cases hk : a.1 = k
    · simp [dictGet, hk]
    · simp [dictGet, hk, ih]

theorem dictGet_dictInsert_self (m : Dict) (k : String) (v : JVal) :
    dictGet (dictInsert m k v) k = some v := by
  unfold dictInsert
  by_cases h : hasKey m k
  · simp only [h, if_true]
    exact replaceAll_get_self m k v h
  · simp only [Bool.not_eq_true] at h
    simp only [h, Bool.false_eq_true, if_false]
    rw [dictGet_append, dictGet_eq_none_of_hasKey_false m k h]
    simp [dictGet]

theorem dictGet_dictInsert_ne (m : Dict) (k : String) (v : JVal) (k' : String)
    (h : k' ≠ k) :
    dictGet (dictInsert m k v) k' = dictGet m k' := by
  unfold dictInsert
  by_cases hm : hasKey m k
  · simp only [hm, if_true]
    exact replaceAll_get_ne m k v k' h
  · simp only [Bool.not_eq_true] at hm
    simp only [hm, Bool.false_eq_true, if_false]
    rw [dictGet_append]
    cases hc : dictGet m k' with
    | some v' => rfl
    | none =>
      have hne : ¬ (k = k') := fun hk => h hk.symm
      simp [dictGet, hne]

theorem dictGet_eq_none_of_not_mem_keys (m : Dict) (k : String)
    (h : k ∉ m.map Prod.fst) :
    dictGet m k = none := by
  induction m with
  | nil => rfl
  | cons a t ih =>
    simp only [List.map_cons, List.mem_cons, not_or] at h
    rw [dictGet_cons]
    have : ¬ (a.1 = k) := fun hk => h.1 hk.symm
    simp only [this, if_false]
    exact ih h.2

theorem dictGet_dictUnion (a b : Dict) (hb : (b.map Prod.fst).Nodup) (k : String) :
    dictGet (dictUnion a b) k =
      match dictGet b k with
      | some v => some v
      | none => dictGet a k := by
  induction b generalizing a with
  | nil => rfl
  | cons kv rest ih =>
    simp only [List.map_cons, List.nodup_cons] at hb
    have step : dictUnion a (kv :: rest) = dictUnion (dictInsert a kv.1 kv.2) rest := rfl
    rw [step, ih _ hb.2, dictGet_cons]
    by_cases hk : kv.1 = k
    · have hrest : dictGet rest k = none := by
        rw [← hk]
        exact dictGet_eq_none_of_not_mem_keys rest kv.1 hb.1
      rw [hrest]
      subst hk
      simp [dictGet_dictInsert_self]
    · simp only [hk, if_false]
      cases hr : dictGet rest k with
      | some v => rfl
      | none => simp [dictGet_dictInsert_ne a kv.1 kv.2 k (fun he => hk he.symm)]

end DictLemmas

namespace SyncFromNova

/-- Claim C1: the collection merge puts the overlay (pezkuwi) entries
first in their original order, followed by exactly those base (nova)
entries whose chainId matches no overlay chainId, in their original
order; with disjoint identifier sets the result is overlay ++ base with
length len(base) + len(overlay), and no overlay chainId occurs more than
once in the result. -/
theorem merge_chains_overlay_wins (nova pezkuwi : List Chain)
    (hB : ∀ c ∈ nova, c.chainId ≠ "")
    (hO : ∀ c ∈ pezkuwi, c.chainId ≠ "")
    (hU : (pezkuwi.map Chain.chainId).Nodup) :
    merge_chains nova pezkuwi
      = pezkuwi ++ nova.filter (fun c => decide (∀ p ∈ pezkuwi, p.chainId ≠ c.chainId))
    ∧ ((∀ c ∈ nova, ∀ p ∈ pezkuwi, p.chainId ≠ c.chainId) →
        merge_chains nova pezkuwi = pezkuwi ++ nova
        ∧ (merge_chains nova pezkuwi).length = nova.length + pezkuwi.length)
    ∧ (∀ p ∈ pezkuwi,
        (merge_chains nova pezkuwi).countP (fun e => e.chainId == p.chainId) ≤ 1) := by
  have hpred : ∀ c : Chain,
      (!((pezkuwi.map Chain.chainId).contains c.chainId))
        = decide (∀ p ∈ pezkuwi, p.chainId ≠ c.chainId) := by
    intro c
    by_cases h : ∀ p ∈ pezkuwi, p.chainId ≠ c.chainId
    · have h1 : ¬ ∃ a ∈ pezkuwi, a.chainId = c.chainId := by
        rintro ⟨a, ha, heq⟩
        exact h a ha heq
      simp [h1]
      exact h
    · push_neg at h
      obtain ⟨p, hp, heq⟩ := h
      have h1 : ∃ a ∈ pezkuwi, a.chainId = c.chainId := ⟨p, hp, heq⟩
      have h2 : ¬ ∀ p ∈ pezkuwi, p.chainId ≠ c.chainId := by
        push_neg
        exact ⟨p, hp, heq⟩
      simp [h1, h2]
  refine ⟨?_, ?_, ?_⟩
  · unfold merge_chains
    simp only
    congr 1
    exact List.filter_congr (fun c _ => hpred c)
  · intro hdisj
    constructor
    · unfold merge_chains
      simp only
      congr 1
      rw [List.filter_eq_self]
      intro c hc
      rw [hpred c]
      simpa using hdisj c hc
    · unfold merge_chains
      simp only [List.length_append]
      rw [List.filter_eq_self.mpr]
      · omega
      · intro c hc
        rw [hpred c]
        simpa using hdisj c hc
  · intro p hp
    unfold merge_chains
    simp only [List.countP_append]
    have h2 : (nova.filter (fun c => !((pezkuwi.map Chain.chainId).contains c.chainId))).countP
        (fun e => e.chainId == p.chainId) = 0 := by
      rw [List.countP_eq_zero]
      intro e he
      have := List.of_mem_filter he
      simp at this ⊢
      intro heq
      exact absurd (heq ▸ List.mem_map_of_mem Chain.chainId hp) (by simpa using this)
    have h1 : pezkuwi.countP (fun e => e.chainId == p.chainId) ≤ 1 := by
      have : pezkuwi.countP (fun e => e.chainId == p.chainId)
          = (pezkuwi.map Chain.chainId).count p.chainId := by
        rw [List.count_eq_countP, List.countP_map]
        rfl
      rw [this]
      exact List.nodup_iff_count_le_one.mp hU p.chainId
    omega

/-- Witness for claim C1 at a concrete base and overlay with one
identifier collision. -/
theorem merge_chains_overlay_wins_witness :
    merge_chains
        [⟨"1", some "Alpha", none, []⟩, ⟨"2", some "Beta", none, []⟩]
        [⟨"1", some "Alpha-Overlay", none, []⟩]
      = [⟨"1", some "Alpha-Overlay", none, []⟩]
        ++ [⟨"1", some "Alpha", none, []⟩, ⟨"2", some "Beta", none, []⟩].filter
          (fun c => decide (∀ p ∈ [(⟨"1", some "Alpha-Overlay", none, []⟩ : Chain)],
            p.chainId ≠ c.chainId)) := by
  exact (merge_chains_overlay_wins
    [⟨"1", some "Alpha", none, []⟩, ⟨"2", some "Beta", none, []⟩]
    [⟨"1", some "Alpha-Overlay", none, []⟩]
    (by decide) (by decide) (by decide)).1

/-- Claim C5: re-merging the overlay into an already-merged result is a
no-op, for every base A and overlay B. -/
theorem merge_chains_remerge_idempotent (A B : List Chain) :
    merge_chains (merge_chains A B) B = merge_chains A B := by
  unfold merge_chains
  simp only [List.filter_append, List.append_assoc, List.append_cancel_left_eq]
  have h1 : B.filter (fun c => !((B.map Chain.chainId).contains c.chainId)) = [] := by
    rw [List.filter_eq_nil_iff]
    intro c hc
    simp [List.mem_map]
    exact ⟨c, hc, rfl⟩
  rw [h1, List.filter_filter]
  simp

/-- The section-absence policy asserted by claim C3: every named section
other than chains that is absent from both inputs is absent from the
merged document. -/
def sectionAbsencePolicy : Prop :=
  ∀ a b : XcmDoc,
    (a.assetsLocation = none → b.assetsLocation = none →
      (merge_xcm a b).assetsLocation = none)
    ∧ (a.instructions = none → b.instructions = none →
      (merge_xcm a b).instructions = none)
    ∧ (a.networkDeliveryFee = none → b.networkDeliveryFee = none →
      (merge_xcm a b).networkDeliveryFee = none)
    ∧ (a.networkBaseWeight = none → b.networkBaseWeight = none →
      (merge_xcm a b).networkBaseWeight = none)

/-- A section document with every section absent. -/
def emptyXcmDoc : XcmDoc :=
  { assetsLocation := none
  , instructions := none
  , networkDeliveryFee := none
  , networkBaseWeight := none
  , chains := none }

/-- Counterexample to claim C3: merging two documents with no sections at
all yields a document whose assetsLocation section is a synthesized empty
dict, not an absent key. -/
theorem sectionAbsencePolicy_false :
    ¬ sectionAbsencePolicy ∧ (merge_xcm emptyXcmDoc emptyXcmDoc).assetsLocation = some [] := by
  constructor
  · intro h
    have h1 := (h emptyXcmDoc emptyXcmDoc).1 rfl rfl
    exact Option.noConfusion h1
  · rfl

/-- Claim C3 as amended: only the instructions section propagates absence;
the dict-valued sections and the chains section are always present in the
merged document, synthesized as empty containers when absent from both
inputs. -/
theorem merge_xcm_section_presence (a b : XcmDoc) :
    (a.instructions = none → b.instructions = none → (merge_xcm a b).instructions = none)
    ∧ (a.assetsLocation = none → b.assetsLocation = none →
      (merge_xcm a b).assetsLocation = some [])
    ∧ (a.networkDeliveryFee = none → b.networkDeliveryFee = none →
      (merge_xcm a b).networkDeliveryFee = some [])
    ∧ (a.networkBaseWeight = none → b.networkBaseWeight = none →
      (merge_xcm a b).networkBaseWeight = some [])
    ∧ (a.chains = none → b.chains = none → (merge_xcm a b).chains = some []) := by
  refine ⟨?_, ?_, ?_, ?_, ?_⟩
  · intro h1 _
    simp [merge_xcm, h1]
  · intro h1 h2
    simp [merge_xcm, h1, h2, dictUnion]
  · intro h1 h2
    simp [merge_xcm, h1, h2, dictUnion]
  · intro h1 h2
    simp [merge_xcm, h1, h2, dictUnion]
  · intro h1 h2
    simp [merge_xcm, h1, h2]

/-- Witness for the amended claim C3 at the all-absent document. -/
theorem merge_xcm_section_presence_witness :
    (merge_xcm emptyXcmDoc emptyXcmDoc).instructions = none
    ∧ (merge_xcm emptyXcmDoc emptyXcmDoc).assetsLocation = some []
    ∧ (merge_xcm emptyXcmDoc emptyXcmDoc).networkDeliveryFee = some []
    ∧ (merge_xcm emptyXcmDoc emptyXcmDoc).networkBaseWeight = some []
    ∧ (merge_xcm emptyXcmDoc emptyXcmDoc).chains = some [] := by
  obtain ⟨p1, p2, p3, p4, p5⟩ := merge_xcm_section_presence emptyXcmDoc emptyXcmDoc
  exact ⟨p1 rfl rfl, p2 rfl rfl, p3 rfl rfl, p4 rfl rfl, p5 rfl rfl⟩

/-- The instructions policy asserted by claim C4: the base value of the
instructions section is kept verbatim when the overlay leaves it alone,
and shallow-merged with the overlay value when the overlay also defines
the section. -/
def instructionsShallowMergeClaim : Prop :=
  ∀ a b : XcmDoc, ∀ bv : Dict,
    a.instructions = some bv →
      ((b.instructions = none → (merge_xcm a b).instructions = some bv)
       ∧ (∀ ov : Dict, b.instructions = some ov →
          (merge_xcm a b).instructions = some (dictUnion bv ov)))

/-- Base document for the claim C4 counterexample. -/
def instrDocBase : XcmDoc :=
  { emptyXcmDoc with instructions := some [("a", JVal.str "1")] }

/-- Overlay document for the claim C4 counterexample. -/
def instrDocOverlay : XcmDoc :=
  { emptyXcmDoc with instructions := some [("a", JVal.str "2")] }

/-- Counterexample to claim C4: when both documents define instructions,
the merge keeps the base value untouched instead of shallow-merging the
overlay value over it. -/
theorem instructionsShallowMergeClaim_false : ¬ instructionsShallowMergeClaim := by
  intro h
  have h2 := (h instrDocBase instrDocOverlay [("a", JVal.str "1")] rfl).2
    [("a", JVal.str "2")] rfl
  have h3 : (some [("a", JVal.str "1")] : Option Dict) = some [("a", JVal.str "2")] := h2
  have h4 : JVal.str "1" = JVal.str "2" := by
    injection h3 with h5
    injection h5 with h6 _
    exact congrArg Prod.snd h6
  injection h4 with h7
  exact absurd h7 (by decide)

/-- Claim C4 as amended: the instructions section of the merged document
always equals the instructions section of the base document; the
overlay value for that section is ignored entirely. -/
theorem merge_xcm_instructions_from_base (a b : XcmDoc) :
    (merge_xcm a b).instructions = a.instructions := by
  cases h : a.instructions <;> simp [merge_xcm, h]

/-- The one-level-deep merge shape of a single key, as claim C9 words it:
dict values on both sides are shallow-merged with the overlay inner
values winning, anything else present in the overlay replaces the base
value wholesale, and base-only keys survive unchanged. -/
def configMergeAt : Option JVal → Option JVal → Option JVal
  | some (JVal.obj bd), some (JVal.obj od) => some (JVal.obj (dictUnion bd od))
  | _, some v => some v
  | some v, none => some v
  | none, none => none

/-- Helper for claim C9: the key-level reading of merge_config, by
induction over the overlay items. -/
theorem merge_config_get :
    ∀ overlay : Dict, (overlay.map Prod.fst).Nodup →
      ∀ base : Dict, ∀ k,
        dictGet (merge_config base overlay) k
          = configMergeAt (dictGet base k) (dictGet overlay k) := by
  intro overlay
  induction overlay with
  | nil =>
    intro _ base k
    have hbase : merge_config base [] = base := rfl
    rw [hbase]
    cases h : dictGet base k with
    | none => rfl
    | some v => cases v <;> rfl
  | cons kv rest ih =>
    intro hO base k
    simp only [List.map_cons, List.nodup_cons] at hO
    have step : merge_config base (kv :: rest)
        = merge_config (mergeConfigStep base kv) rest := rfl
    rw [step]
    by_cases hk : kv.1 = k
    · have hrest : dictGet rest k = none := by
        rw [← hk]
        exact dictGet_eq_none_of_not_mem_keys rest kv.1 hO.1
      rw [ih hO.2 _ k, hrest, dictGet_cons]
      subst hk
      simp only [if_pos rfl]
      cases hb : dictGet base kv.1 with
      | none =>
        cases hv : kv.2 <;>
          simp [mergeConfigStep, hb, hv, configMergeAt, dictGet_dictInsert_self]
      | some bv =>
        cases bv <;> cases hv : kv.2 <;>
          simp [mergeConfigStep, hb, hv, configMergeAt, dictGet_dictInsert_self]
    · have hstep : dictGet (mergeConfigStep base kv) k = dictGet base k := by
        unfold mergeConfigStep
        cases hb : dictGet base kv.1 with
        | none =>
          cases hv : kv.2 <;>
            exact dictGet_dictInsert_ne base kv.1 _ k (fun he => hk he.symm)
        | some bv =>
          cases bv <;> cases hv : kv.2 <;>
            exact dictGet_dictInsert_ne base kv.1 _ k (fun he => hk he.symm)
      rw [ih hO.2 _ k, hstep, dictGet_cons]
      simp only [hk, if_false]

/-- Claim C9: at every key, the merged global config holds exactly the
one-level-deep combination of the base and overlay values; the shallow
dict union itself resolves every key to the overlay value when the
overlay has it and to the base value otherwise. -/
theorem merge_config_one_level (base overlay : Dict)
    (hO : (overlay.map Prod.fst).Nodup) :
    (∀ k, dictGet (merge_config base overlay) k
      = configMergeAt (dictGet base k) (dictGet overlay k))
    ∧ (∀ a b : Dict, (b.map Prod.fst).Nodup → ∀ k,
        dictGet (dictUnion a b) k
          = match dictGet b k with
            | some v => some v
            | none => dictGet a k) :=
  ⟨merge_config_get overlay hO base, fun a b hb k => dictGet_dictUnion a b hb k⟩

/-- Witness for claim C9 at a concrete base and overlay sharing the
dict-valued key s and the scalar key t. -/
theorem merge_config_one_level_witness :
    dictGet
        (merge_config
          [("s", JVal.obj [("u", JVal.num 1), ("v", JVal.num 2)]), ("t", JVal.num 3)]
          [("s", JVal.obj [("v", JVal.num 9), ("w", JVal.num 7)]), ("x", JVal.num 4)])
        "s"
      = configMergeAt
          (dictGet [("s", JVal.obj [("u", JVal.num 1), ("v", JVal.num 2)]),
            ("t", JVal.num 3)] "s")
          (dictGet [("s", JVal.obj [("v", JVal.num 9), ("w", JVal.num 7)]),
            ("x", JVal.num 4)] "s") := by
  exact (merge_config_one_level
    [("s", JVal.obj [("u", JVal.num 1), ("v", JVal.num 2)]), ("t", JVal.num 3)]
    [("s", JVal.obj [("v", JVal.num 9), ("w", JVal.num 7)]), ("x", JVal.num 4)]
    (by decide)).1 "s"

end SyncFromNova

namespace MergeChainsPy

/-- A nova chain survives the loop of merge_chains when its chainId is
not a pezkuwi chainId and, with filtering on, the classifier keeps it. -/
def keepPred (ids : List String) (fb : Bool) (c : Chain) : Bool :=
  !(ids.contains c.chainId) && !(fb && (is_chain_excluded c).1)

/-- A nova chain is recorded as excluded when it is not a duplicate and,
with filtering on, the classifier rejects it. -/
def excludedPred (ids : List String) (fb : Bool) (c : Chain) : Bool :=
  !(ids.contains c.chainId) && (fb && (is_chain_excluded c).1)

/-- The (name, reason) pair recorded for an excluded chain. -/
def excludedEntry (c : Chain) : String × String :=
  (c.name.getD "Unknown", (is_chain_excluded c).2)

/-- Characterization of the whole merge_chains loop: each loop-state
field after folding over the nova chains, as a filter, map or countP of
the input, for every starting state. -/
theorem foldl_mergeStep (ids : List String) (fb : Bool) :
    ∀ (nova : List Chain) (s : LoopState),
      (nova.foldl (mergeStep ids fb) s).nova_filtered
          = s.nova_filtered ++ nova.filter (keepPred ids fb)
      ∧ (nova.foldl (mergeStep ids fb) s).excluded_chains
          = s.excluded_chains ++ (nova.filter (excludedPred ids fb)).map excludedEntry
      ∧ (nova.foldl (mergeStep ids fb) s).nova_included
          = s.nova_included + (nova.filter (keepPred ids fb)).length
      ∧ (nova.foldl (mergeStep ids fb) s).excluded_duplicate
          = s.excluded_duplicate + nova.countP (fun c => ids.contains c.chainId)
      ∧ (nova.foldl (mergeStep ids fb) s).excluded_paused
          = s.excluded_paused + (nova.filter (excludedPred ids fb)).countP
              (fun c => strContains (is_chain_excluded c).2 "PAUSED")
      ∧ (nova.foldl (mergeStep ids fb) s).excluded_testnet
          = s.excluded_testnet + (nova.filter (excludedPred ids fb)).countP
              (fun c => !(strContains (is_chain_excluded c).2 "PAUSED")
                && strContains (is_chain_excluded c).2 "testnet")
      ∧ (nova.foldl (mergeStep ids fb) s).excluded_broken
          = s.excluded_broken + (nova.filter (excludedPred ids fb)).countP
              (fun c => !(strContains (is_chain_excluded c).2 "PAUSED")
                && !(strContains (is_chain_excluded c).2 "testnet")) := by
  intro nova
  induction nova with
  | nil => intro s; simp
  | cons c rest ih =>
    intro s
    obtain ⟨ih1, ih2, ih3, ih4, ih5, ih6, ih7⟩ := ih (mergeStep ids fb s c)
    simp only [List.foldl_cons]
    cases h1 : ids.contains c.chainId with
    | true =>
      have hs : mergeStep ids fb s c = { s with excluded_duplicate := s.excluded_duplicate + 1 } := by
        simp only [mergeStep, h1]
        rfl
      have hk : keepPred ids fb c = false := by
        simp only [keepPred, h1, Bool.not_true, Bool.false_and]
      have he : excludedPred ids fb c = false := by
        simp only [excludedPred, h1, Bool.not_true, Bool.false_and]
      rw [hs] at ih1 ih2 ih3 ih4 ih5 ih6 ih7 ⊢
      refine ⟨?_, ?_, ?_, ?_, ?_, ?_, ?_⟩
      · rw [ih1]; simp [List.filter_cons, hk]
      · rw [ih2]; simp [List.filter_cons, he]
      · rw [ih3]; simp [List.filter_cons, hk]
      · rw [ih4]
        have h1m : c.chainId ∈ ids := by simpa using h1
        simp [List.countP_cons, h1m] <;> omega
      · rw [ih5]; simp [List.filter_cons, he]
      · rw [ih6]; simp [List.filter_cons, he]
      · rw [ih7]; simp [List.filter_cons, he]
    | false =>
      cases h2 : fb && (is_chain_excluded c).1 with
      | true =>
        have hs : mergeStep ids fb s c = { s with
            excluded_chains := s.excluded_chains ++ [excludedEntry c]
            excluded_paused :=
              if strContains (is_chain_excluded c).2 "PAUSED" then s.excluded_paused + 1
              else s.excluded_paused
            excluded_testnet :=
              if !(strContains (is_chain_excluded c).2 "PAUSED")
                  && strContains (is_chain_excluded c).2 "testnet" then s.excluded_testnet + 1
              else s.excluded_testnet
            excluded_broken :=
              if !(strContains (is_chain_excluded c).2 "PAUSED")
                  && !(strContains (is_chain_excluded c).2 "testnet") then s.excluded_broken + 1
              else s.excluded_broken } := by
          simp only [mergeStep, h1, excludedEntry]
          simp only [h2]
          rfl
        have hk : keepPred ids fb c = false := by
          simp only [keepPred, h1, Bool.not_false, Bool.true_and, h2, Bool.not_true]
        have he : excludedPred ids fb c = true := by
          simp only [excludedPred, h1, Bool.not_false, Bool.true_and, h2]
        rw [hs] at ih1 ih2 ih3 ih4 ih5 ih6 ih7 ⊢
        refine ⟨?_, ?_, ?_, ?_, ?_, ?_, ?_⟩
        · rw [ih1]; simp [List.filter_cons, hk]
        · rw [ih2]; simp [List.filter_cons, he, excludedEntry]
        · rw [ih3]; simp [List.filter_cons, hk]
        · rw [ih4]
          have h1m : c.chainId ∉ ids := by simpa using h1
          simp [List.countP_cons, h1m] <;> omega
        · rw [ih5]
          simp only [List.filter_cons, he, if_true, List.countP_cons]
          cases hp : strContains (is_chain_excluded c).2 "PAUSED" <;> simp [hp] <;> omega
        · rw [ih6]
          simp only [List.filter_cons, he, if_true, List.countP_cons]
          cases hp : strContains (is_chain_excluded c).2 "PAUSED" <;>
            cases ht : strContains (is_chain_excluded c).2 "testnet" <;>
              simp [hp, ht] <;> omega
        · rw [ih7]
          simp only [List.filter_cons, he, if_true, List.countP_cons]
          cases hp : strContains (is_chain_excluded c).2 "PAUSED" <;>
            cases ht : strContains (is_chain_excluded c).2 "testnet" <;>
              simp [hp, ht] <;> omega
      | false =>
        have hs : mergeStep ids fb s c = { s with
            nova_filtered := s.nova_filtered ++ [c]
            nova_included := s.nova_included + 1 } := by
          simp only [mergeStep, h1]
          simp only [h2]
          rfl
        have hk : keepPred ids fb c = true := by
          simp only [keepPred, h1, Bool.not_false, Bool.true_and, h2]
        have he : excludedPred ids fb c = false := by
          simp only [excludedPred, h1, Bool.not_false, Bool.true_and, h2]
        rw [hs] at ih1 ih2 ih3 ih4 ih5 ih6 ih7 ⊢
        refine ⟨?_, ?_, ?_, ?_, ?_, ?_, ?_⟩
        · rw [ih1]; simp [List.filter_cons, hk]
        · rw [ih2]; simp [List.filter_cons, he]
        · rw [ih3]; simp [List.filter_cons, hk]; omega
        · rw [ih4]
          have h1m : c.chainId ∉ ids := by simpa using h1
          simp [List.countP_cons, h1m] <;> omega
        · rw [ih5]; simp [List.filter_cons, he]
        · rw [ih6]; simp [List.filter_cons, he]
        · rw [ih7]; simp [List.filter_cons, he]

/-- The merged list returned by merge_chains is the pezkuwi chains
followed by the nova chains kept by the loop. -/
theorem merge_chains_fst (nova pezkuwi : List Chain) (fb : Bool) :
    (merge_chains nova pezkuwi fb).1
      = pezkuwi ++ nova.filter (keepPred (pezkuwi.map Chain.chainId) fb) := by
  have h := (foldl_mergeStep (pezkuwi.map Chain.chainId) fb nova
    ⟨[], [], 0, 0, 0, 0, 0⟩).1
  simp only [merge_chains]
  rw [h]
  rfl

/-- Claim C2: the exclusion classifier applies its four rules in order
with the first match winning, returning the distinct reason attached to
each rule, and classifies as not excluded when no rule matches. -/
theorem is_chain_excluded_rule_order (chain : Chain) :
    (EXCLUDED_CHAIN_IDS.contains chain.chainId = true →
      is_chain_excluded chain = (true, "broken RPC"))
    ∧ (EXCLUDED_CHAIN_IDS.contains chain.chainId = false →
        strContains (chain.name.getD "") "PAUSED" = true →
        is_chain_excluded chain = (true, "PAUSED"))
    ∧ (EXCLUDED_CHAIN_IDS.contains chain.chainId = false →
        strContains (chain.name.getD "") "PAUSED" = false →
        ((chain.options.getD []).contains "testnet"
            && !(strContains (lowerStr (chain.name.getD "")) "pezkuwi")
            && !(strContains (lowerStr (chain.name.getD "")) "zagros")) = true →
        is_chain_excluded chain = (true, "testnet"))
    ∧ (∀ kw, EXCLUDED_CHAIN_IDS.contains chain.chainId = false →
        strContains (chain.name.getD "") "PAUSED" = false →
        ((chain.options.getD []).contains "testnet"
            && !(strContains (lowerStr (chain.name.getD "")) "pezkuwi")
            && !(strContains (lowerStr (chain.name.getD "")) "zagros")) = false →
        BROKEN_CHAIN_KEYWORDS.find?
            (fun keyword => strContains (lowerStr (chain.name.getD "")) keyword) = some kw →
        is_chain_excluded chain = (true, "broken (" ++ kw ++ ")"))
    ∧ (EXCLUDED_CHAIN_IDS.contains chain.chainId = false →
        strContains (chain.name.getD "") "PAUSED" = false →
        ((chain.options.getD []).contains "testnet"
            && !(strContains (lowerStr (chain.name.getD "")) "pezkuwi")
            && !(strContains (lowerStr (chain.name.getD "")) "zagros")) = false →
        BROKEN_CHAIN_KEYWORDS.find?
            (fun keyword => strContains (lowerStr (chain.name.getD "")) keyword) = none →
        is_chain_excluded chain = (false, ""))
    ∧ (["broken RPC", "PAUSED", "testnet", ""]
        ++ BROKEN_CHAIN_KEYWORDS.map (fun k => "broken (" ++ k ++ ")")).Nodup := by
  refine ⟨?_, ?_, ?_, ?_, ?_, ?_⟩
  · intro h1
    simp only [is_chain_excluded, h1, if_true]
  · intro h1 h2
    simp only [is_chain_excluded, h1, h2, Bool.false_eq_true, if_false, if_true]
  · intro h1 h2 h3
    simp only [is_chain_excluded, h1, h2, h3, Bool.false_eq_true, if_false, if_true]
  · intro kw h1 h2 h3 h4
    simp only [is_chain_excluded, h1, h2, h3, h4, Bool.false_eq_true, if_false]
  · intro h1 h2 h3 h4
    simp only [is_chain_excluded, h1, h2, h3, h4, Bool.false_eq_true, if_false]
  · decide

/-- Witness for claim C2 at the keyword-match scenario: a chain named
Quartz Network falls through the first three rules and is excluded by
the quartz keyword. -/
theorem is_chain_excluded_rule_order_witness :
    is_chain_excluded ⟨"x", some "Quartz Network", none, []⟩
      = (true, "broken (" ++ "quartz" ++ ")") := by
  exact (is_chain_excluded_rule_order ⟨"x", some "Quartz Network", none, []⟩).2.2.2.1
    "quartz" (by decide) (by decide) (by decide) (by decide)

/-- Any list of (name, reason) pairs is partitioned by the three reason
buckets that the stats counters use. -/
theorem countP_reason_partition (l : List (String × String)) :
    l.length = l.countP (fun p => strContains p.2 "PAUSED")
      + l.countP (fun p => !(strContains p.2 "PAUSED") && strContains p.2 "testnet")
      + l.countP (fun p => !(strContains p.2 "PAUSED") && !(strContains p.2 "testnet")) := by
  induction l with
  | nil => rfl
  | cons a t ih =>
    simp only [List.length_cons, List.countP_cons]
    cases hp : strContains a.2 "PAUSED" <;> cases ht : strContains a.2 "testnet" <;>
      simp [hp, ht] <;> omega

/-- Claim C6: the stats value returned by merge_chains carries one
(name, reason) pair for every base entry excluded by the filter, and
per-reason counters that add up to the length of that list. -/
theorem merge_chains_stats_reported (nova pezkuwi : List Chain) :
    (merge_chains nova pezkuwi true).2.excluded_list
        = (nova.filter (excludedPred (pezkuwi.map Chain.chainId) true)).map excludedEntry
    ∧ (merge_chains nova pezkuwi true).2.excluded_paused
        = (merge_chains nova pezkuwi true).2.excluded_list.countP
            (fun p => strContains p.2 "PAUSED")
    ∧ (merge_chains nova pezkuwi true).2.excluded_testnet
        = (merge_chains nova pezkuwi true).2.excluded_list.countP
            (fun p => !(strContains p.2 "PAUSED") && strContains p.2 "testnet")
    ∧ (merge_chains nova pezkuwi true).2.excluded_broken
        = (merge_chains nova pezkuwi true).2.excluded_list.countP
            (fun p => !(strContains p.2 "PAUSED") && !(strContains p.2 "testnet"))
    ∧ (merge_chains nova pezkuwi true).2.excluded_list.length
        = (merge_chains nova pezkuwi true).2.excluded_paused
          + (merge_chains nova pezkuwi true).2.excluded_testnet
          + (merge_chains nova pezkuwi true).2.excluded_broken := by
  obtain ⟨h1, h2, h3, h4, h5, h6, h7⟩ := foldl_mergeStep (pezkuwi.map Chain.chainId) true nova
    (⟨[], [], 0, 0, 0, 0, 0⟩ : LoopState)
  have hlist : (merge_chains nova pezkuwi true).2.excluded_list
      = (nova.filter (excludedPred (pezkuwi.map Chain.chainId) true)).map excludedEntry := by
    simp only [merge_chains]
    rw [h2]
    rfl
  have hpaused : (merge_chains nova pezkuwi true).2.excluded_paused
      = (nova.filter (excludedPred (pezkuwi.map Chain.chainId) true)).countP
          (fun c => strContains (is_chain_excluded c).2 "PAUSED") := by
    simp only [merge_chains]
    rw [h5]
    simp
  have htest : (merge_chains nova pezkuwi true).2.excluded_testnet
      = (nova.filter (excludedPred (pezkuwi.map Chain.chainId) true)).countP
          (fun c => !(strContains (is_chain_excluded c).2 "PAUSED")
            && strContains (is_chain_excluded c).2 "testnet") := by
    simp only [merge_chains]
    rw [h6]
    simp
  have hbrk : (merge_chains nova pezkuwi true).2.excluded_broken
      = (nova.filter (excludedPred (pezkuwi.map Chain.chainId) true)).countP
          (fun c => !(strContains (is_chain_excluded c).2 "PAUSED")
            && !(strContains (is_chain_excluded c).2 "testnet")) := by
    simp only [merge_chains]
    rw [h7]
    simp
  refine ⟨hlist, ?_, ?_, ?_, ?_⟩
  · rw [hpaused, hlist, List.countP_map]
    rfl
  · rw [htest, hlist, List.countP_map]
    rfl
  · rw [hbrk, hlist, List.countP_map]
    rfl
  · rw [hlist, hpaused, htest, hbrk]
    have := countP_reason_partition
      ((nova.filter (excludedPred (pezkuwi.map Chain.chainId) true)).map excludedEntry)
    rw [this]
    simp only [List.countP_map]
    rfl

/-- Claim C8: for either value of the filtering toggle, every entry of
the merged output is a pezkuwi entry or carries a chainId no pezkuwi
entry has; with filtering off the merge degenerates to the plain
duplicate-removing merge of sync_from_nova.py. -/
theorem merge_chains_dedup_unconditional (nova pezkuwi : List Chain) :
    (∀ fb : Bool, ∀ e ∈ (merge_chains nova pezkuwi fb).1,
        e ∈ pezkuwi ∨ e.chainId ∉ pezkuwi.map Chain.chainId)
    ∧ (merge_chains nova pezkuwi false).1 = SyncFromNova.merge_chains nova pezkuwi := by
  constructor
  · intro fb e he
    rw [merge_chains_fst nova pezkuwi fb] at he
    rcases List.mem_append.mp he with hl | hr
    · exact Or.inl hl
    · right
      have hkeep := List.of_mem_filter hr
      simp only [keepPred, Bool.and_eq_true, Bool.not_eq_true'] at hkeep
      simpa using hkeep.1
  · rw [merge_chains_fst nova pezkuwi false]
    unfold SyncFromNova.merge_chains
    simp only
    congr 1
    apply List.filter_congr
    intro c _
    simp [keepPred]

/-- Witness for claim C8 at a one-entry base and disjoint one-entry
overlay: the base entry survives and indeed carries a fresh chainId. -/
theorem merge_chains_dedup_unconditional_witness :
    ((⟨"a1", some "Alpha", none, []⟩ : Chain) ∈ [(⟨"b1", some "Beta", none, []⟩ : Chain)]
      ∨ (⟨"a1", some "Alpha", none, []⟩ : Chain).chainId
          ∉ [(⟨"b1", some "Beta", none, []⟩ : Chain)].map Chain.chainId) := by
  exact (merge_chains_dedup_unconditional
    [⟨"a1", some "Alpha", none, []⟩] [⟨"b1", some "Beta", none, []⟩]).1 true
    ⟨"a1", some "Alpha", none, []⟩ (by decide)

/-- Claim C7: a missing version-specific base file makes merge_version
fall back to the root-level base file; with neither present the resource
is reported failed (false) with nothing written; and the all-versions run
processes every version regardless of the per-version outcome. -/
theorem merge_version_fallback_and_continue (fs : FS) (version : String) (fb : Bool) :
    (fs.present.contains (novaVersionPath version) = false →
      fs.present.contains novaRootPath = true →
      merge_version fs version fb =
        ( true
        , [ ("chains/" ++ version ++ "/chains.json",
              (merge_chains (fs.chainsAt novaRootPath)
                (if fs.present.contains pezkuwiChainsPath then fs.chainsAt pezkuwiChainsPath
                 else []) fb).1)
          , ("chains/chains.json",
              (merge_chains (fs.chainsAt novaRootPath)
                (if fs.present.contains pezkuwiChainsPath then fs.chainsAt pezkuwiChainsPath
                 else []) fb).1)
          , ("chains/" ++ version ++ "/android/chains.json",
              (merge_chains (fs.chainsAt novaRootPath)
                (if fs.present.contains pezkuwiChainsPath then fs.chainsAt pezkuwiChainsPath
                 else []) fb).1) ] ))
    ∧ (fs.present.contains (novaVersionPath version) = false →
        fs.present.contains novaRootPath = false →
        merge_version fs version fb = (false, []))
    ∧ main_all fs fb = [merge_version fs "v21" fb, merge_version fs "v22" fb] := by
  refine ⟨?_, ?_, rfl⟩
  · intro h1 h2
    simp only [merge_version, h1, h2, Bool.false_eq_true, if_false, if_true]
  · intro h1 h2
    simp only [merge_version, h1, h2, Bool.false_eq_true, if_false]

/-- A filesystem holding only the root-level base file. -/
def fsRootOnly : FS :=
  { present := [novaRootPath], chainsAt := fun _ => [] }

/-- Witness for claim C7: with only the root-level base file present, the
v22 merge succeeds through the fallback and fans out to the three output
destinations. -/
theorem merge_version_fallback_witness :
    merge_version fsRootOnly "v22" true
      = (true,
          [ ("chains/v22/chains.json", [])
          , ("chains/chains.json", [])
          , ("chains/v22/android/chains.json", []) ]) := by
  exact (merge_version_fallback_and_continue fsRootOnly "v22" true).1 (by decide) (by decide)

end MergeChainsPy
